import Mathlib

/-!
Verification of the SMTP connector's send-email command
(`src/connectors/m8flow-connector-smtp/src/connector_smtp/commands/send_email.py`).

The Python module is shallowly embedded: every helper function of the source
is translated to an executable Lean definition operating on `String` /
`List Char` / `Int`, with the process environment, the filesystem and the
SMTP transport modelled as explicit parameters.  Log lines and error records
are modelled structurally (one constructor per f-string emitted by the
source) instead of as rendered strings.
-/

namespace SendEmail

/-! ## Python string primitives used by the source -/

/-- Python's whitespace set for `str.strip()` / `str.split()` (ASCII part). -/
def isPyWs (c : Char) : Bool :=
  c = ' ' || c = '\t' || c = '\n' || c = '\r' || c = '\x0b' || c = '\x0c'

/-- `str.strip()` on a character list: drop whitespace from both ends. -/
def pyStripL (l : List Char) : List Char :=
  ((l.dropWhile isPyWs).reverse.dropWhile isPyWs).reverse

/-- `str.strip()`. -/
def pyStrip (s : String) : String :=
  ⟨pyStripL s.data⟩

/-- `"".join(s.split())`: remove every whitespace character. -/
def stripAllWs (l : List Char) : List Char :=
  l.filter (fun c => !isPyWs c)

/-- Split a character list at every occurrence of `sep`
(Python `str.split(sep)` semantics: `"a,,b"` gives three pieces,
`""` gives one empty piece). -/
def splitSep (sep : Char) : List Char → List (List Char)
  | [] => [[]]
  | c :: rest =>
    if c = sep then [] :: splitSep sep rest
    else
      match splitSep sep rest with
      | h :: t => (c :: h) :: t
      | [] => [[c]]

theorem splitSep_ne_nil (sep : Char) (l : List Char) : splitSep sep l ≠ [] := by
  cases l with
  | nil => simp [splitSep]
  | cons c rest =>
    simp only [splitSep]
    split
    · simp
    · split <;> simp_all

/-- Python `int()` digit parsing: digits with single underscores
allowed between digits.  `acc` holds the value of what was read so far.
The head of the remaining input must be a digit (or an underscore followed
by a digit). -/
def pyDigitsAux : Nat → List Char → Option Nat
  | acc, [] => some acc
  | _, ['_'] => none
  | acc, '_' :: c :: rest =>
    if c.isDigit then pyDigitsAux (acc * 10 + (c.toNat - 48)) rest else none
  | acc, c :: rest =>
    if c.isDigit then pyDigitsAux (acc * 10 + (c.toNat - 48)) rest else none

/-- Nonempty digit sequence (no leading underscore). -/
def pyParseNat (l : List Char) : Option Nat :=
  match l with
  | [] => none
  | '_' :: _ => none
  | c :: rest => if c.isDigit then pyDigitsAux (c.toNat - 48) rest else none

/-- Python `int(s)` on an already-stripped ASCII string:
optional sign followed by digits. -/
def pyParseInt (l : List Char) : Option Int :=
  match l with
  | '+' :: rest => (pyParseNat rest).map (fun n => (n : Int))
  | '-' :: rest => (pyParseNat rest).map (fun n => -(n : Int))
  | _ => (pyParseNat l).map (fun n => (n : Int))

/-! ## Limit resolution (`_env_int`, `_get_attachments_limit_bytes`,
`_get_smtp_timeout_seconds`) -/

def HARD_ATTACHMENTS_LIMIT_MB : Int := 100
def DEFAULT_ATTACHMENTS_LIMIT_MB : Int := 100
def DEFAULT_SMTP_TIMEOUT_SECONDS : Int := 30

/-- `_env_int(name, default)`: the environment lookup is passed in as
`raw : Option String`.  Absent or blank values give the default; a value
that does not parse as an integer gives the default. -/
def envInt (raw : Option String) (dflt : Int) : Int :=
  match raw with
  | none => dflt
  | some s =>
    let t := pyStrip s
    if t = "" then dflt
    else (pyParseInt t.data).getD dflt

/-- `_get_attachments_limit_bytes()`. -/
def getAttachmentsLimitBytes (raw : Option String) : Int :=
  let requested₀ := envInt raw DEFAULT_ATTACHMENTS_LIMIT_MB
  let requested := if requested₀ ≤ 0 then DEFAULT_ATTACHMENTS_LIMIT_MB else requested₀
  let effective := min requested HARD_ATTACHMENTS_LIMIT_MB
  effective * 1024 * 1024

/-- `_get_smtp_timeout_seconds()`. -/
def getSmtpTimeoutSeconds (raw : Option String) : Int :=
  let timeout := envInt raw DEFAULT_SMTP_TIMEOUT_SECONDS
  if timeout ≤ 0 then DEFAULT_SMTP_TIMEOUT_SECONDS else timeout

/-! ## Recipient resolution (`_split_recipients`, `_dedupe_keep_order`) -/

/-- `_split_recipients(value)`: `None` and `""` give `[]`; otherwise
replace `;` by `,`, split on `,`, strip each piece, drop empty pieces. -/
def splitRecipients (value : Option String) : List String :=
  match value with
  | none => []
  | some s =>
    if s = "" then []
    else
      let raw := s.data.map (fun c => if c = ';' then ',' else c)
      ((splitSep ',' raw).map pyStripL).filterMap
        (fun p => if p = [] then none else some ⟨p⟩)

/-- `_dedupe_keep_order(items)`: `seen` models the Python `set`. -/
def dedupeAux : List String → List String → List String
  | _, [] => []
  | seen, x :: xs =>
    if x ∈ seen then dedupeAux seen xs
    else x :: dedupeAux (x :: seen) xs

def dedupeKeepOrder (items : List String) : List String :=
  dedupeAux [] items

/-! ## Path guard (`_resolve_and_validate_attachment_path`)

POSIX path functions of `os.path` are modelled on `List Char`:
`isabs` checks a leading `/`; `commonpath` splits on `/`, drops empty and
`.` components and takes the longest common component prefix.  `realpath`
depends on the filesystem (symlinks), so it is a parameter; `lexRealpath`
below is the concrete symlink-free model. -/

/-- `os.path.isabs` on POSIX. -/
def isAbsL (p : List Char) : Bool :=
  p.head? = some '/'

/-- Components of a path as used by `os.path.commonpath`: split on `/`,
drop empty components and `.`. -/
def pathCompsL (p : List Char) : List (List Char) :=
  (splitSep '/' p).filter (fun c => !(c = [] : Bool) && !(c = ['.'] : Bool))

/-- `sep.join(components)`. -/
def joinSlash : List (List Char) → List Char
  | [] => []
  | [c] => c
  | c :: rest => c ++ '/' :: joinSlash rest

/-- An absolute path from components: `"/" + "/".join(cs)`. -/
def joinAbsL (cs : List (List Char)) : List Char :=
  '/' :: joinSlash cs

/-- Longest common prefix of two component lists (what
`os.path.commonpath` computes for two paths). -/
def commonPrefixL : List (List Char) → List (List Char) → List (List Char)
  | x :: xs, y :: ys => if x = y then x :: commonPrefixL xs ys else []
  | _, _ => []

/-- `os.path.commonpath([a, b])` for POSIX paths; `none` models the
`ValueError` raised on a mix of absolute and relative paths. -/
def commonPathL (a b : List Char) : Option (List Char) :=
  if isAbsL a = isAbsL b then
    some ((if isAbsL a then ['/'] else []) ++
      joinSlash (commonPrefixL (pathCompsL a) (pathCompsL b)))
  else none

/-- Boolean list-prefix test. -/
def listIsPrefixL : List (List Char) → List (List Char) → Bool
  | [], _ => true
  | _ :: _, [] => false
  | x :: xs, y :: ys => (x = y : Bool) && listIsPrefixL xs ys

/-- The Windows-drive / UNC heuristic of the source: a colon within the
first three characters, or a leading double backslash. -/
def windowsShapedL (p : List Char) : Bool :=
  (p.take 3).contains ':' || ((p.take 2 = ['\\', '\\'] : Bool))

/-- Errors raised while loading one attachment; one constructor per
`raise` site of the source. -/
inductive AttachErr
  | missingFilename (index : Nat)
  | invalidPathEmpty
  | invalidPathWindows (p : String)
  | invalidPathNotAbs (p : String)
  | invalidPathCommon (p : String)
  | invalidPathOutsideRoot (p : String)
  | fileNotFound (p : String)
  | tooLarge (name : String) (size limit : Int)
  | invalidBase64 (name : String)
  | missingSource (name : String)
  deriving DecidableEq, Repr

/-- The Python exception class of each raise site (`exc.__class__.__name__`
used as `error_code` in the response). -/
def AttachErr.pyClass : AttachErr → String
  | .fileNotFound _ => "FileNotFoundError"
  | _ => "ValueError"

/-- `_resolve_and_validate_attachment_path(path_value)`, parameterised by
the canonicalisation function `rp` (`os.path.realpath`) and the allowed
root directory value (`ALLOWED_ATTACHMENTS_DIR`). -/
def resolveAndValidateAttachmentPath (rp : List Char → List Char)
    (allowedDir : String) (p : String) : Except AttachErr String :=
  if p = "" then .error .invalidPathEmpty
  else
    let allowedRoot := rp allowedDir.data
    if windowsShapedL p.data then .error (.invalidPathWindows p)
    else if !isAbsL p.data then .error (.invalidPathNotAbs p)
    else
      let candidate := rp p.data
      match commonPathL allowedRoot candidate with
      | none => .error (.invalidPathCommon p)
      | some common =>
        if common ≠ allowedRoot then .error (.invalidPathOutsideRoot p)
        else .ok ⟨candidate⟩

/-- Lexical `..`-resolution over components (`..` pops, a normal
component pushes; `..` at the root stays at the root). -/
def resolveDots (cs : List (List Char)) : List (List Char) :=
  cs.foldl (fun acc c => if c = ['.', '.'] then acc.dropLast else acc ++ [c]) []

/-- Symlink-free model of `os.path.realpath` for absolute paths:
resolve `.` and `..` lexically and normalise.  On a filesystem without
symbolic links this is exactly what `os.path.realpath` returns. -/
def lexRealpath (p : List Char) : List Char :=
  joinAbsL (resolveDots (pathCompsL p))

/-- A canonical absolute path: absolute and unchanged by
re-splitting into components (`realpath` output always has this shape). -/
def isCanonAbs (s : List Char) : Bool :=
  isAbsL s && ((s = joinAbsL (pathCompsL s)) : Bool)

/-- The spec's acceptance condition for the path guard: non-empty, not
Windows/UNC-shaped, absolute, and the canonical root's components are a
prefix of the canonical candidate's components. -/
def specPathAccepted (rp : List Char → List Char)
    (allowedDir : String) (p : String) : Bool :=
  !(p = "" : Bool) && !windowsShapedL p.data && isAbsL p.data &&
    listIsPrefixL (pathCompsL (rp allowedDir.data)) (pathCompsL (rp p.data))

/-! ## Base64 (`_estimated_base64_decoded_size`, `base64.b64decode(..., validate=True)`) -/

/-- The `paddingCount` of `_estimated_base64_decoded_size`: 2 for a
trailing `==`, 1 for a single trailing `=`, else 0 (`str.endswith`). -/
def b64PaddingOf (s : List Char) : Int :=
  if List.isSuffixOf ['=', '='] s then 2
  else if List.isSuffixOf ['='] s then 1
  else 0

/-- `_estimated_base64_decoded_size(b64_text)`:
strip all whitespace, then `(len * 3) // 4 - padding`; empty gives 0. -/
def estimatedBase64DecodedSizeL (l : List Char) : Int :=
  let s := stripAllWs l
  if s = [] then 0
  else ((s.length : Int) * 3) / 4 - b64PaddingOf s

def estimatedBase64DecodedSize (s : String) : Int :=
  estimatedBase64DecodedSizeL s.data

/-- Value of a base64 alphabet character (`A-Z a-z 0-9 + /`). -/
def b64Val (c : Char) : Option Nat :=
  if 'A' ≤ c ∧ c ≤ 'Z' then some (c.toNat - 65)
  else if 'a' ≤ c ∧ c ≤ 'z' then some (c.toNat - 97 + 26)
  else if '0' ≤ c ∧ c ≤ '9' then some (c.toNat - 48 + 52)
  else if c = '+' then some 62
  else if c = '/' then some 63
  else none

/-- Model of `base64.b64decode(s, validate=True)` on canonically padded
input: the input must be quads of alphabet characters, the last quad may
end in `=` or `==`; anything else is rejected (the Python decoder also
tolerates a few legacy shapes such as data after padding, which the
source never relies on — on every input this model accepts, Python
accepts with the same bytes).  Bytes are `Nat`s below 256. -/
def b64DecodeCanonical : List Char → Option (List Nat)
  | [] => some []
  | a :: b :: c :: d :: rest =>
    (b64Val a).bind fun va =>
      (b64Val b).bind fun vb =>
        if c = '=' then
          if d = '=' ∧ rest = [] then some [va * 4 + vb / 16]
          else none
        else
          (b64Val c).bind fun vc =>
            if d = '=' then
              if rest = [] then some [va * 4 + vb / 16, (vb % 16) * 16 + vc / 4]
              else none
            else
              (b64Val d).bind fun vd =>
                (b64DecodeCanonical rest).bind fun bs =>
                  some ((va * 4 + vb / 16) ::
                    ((vb % 16) * 16 + vc / 4) :: ((vc % 4) * 64 + vd) :: bs)
  | _ => none

/-! ## Attachment size limit (`_enforce_attachment_limit`) -/

/-- `_enforce_attachment_limit(name, size_bytes, limit_bytes)`:
raises exactly when `size_bytes > limit_bytes`. -/
def enforceAttachmentLimit (name : String) (size limit : Int) :
    Except AttachErr Unit :=
  if size > limit then .error (.tooLarge name size limit) else .ok ()

/-! ## Content type (`_guess_content_type`) -/

/-- Split a string at its first `/` into maintype and subtype
(Python `explicit.split("/", 1)`). -/
def splitSlashOnce (l : List Char) : List Char × List Char :=
  match l with
  | [] => ([], [])
  | c :: rest =>
    if c = '/' then ([], rest)
    else
      let (m, s) := splitSlashOnce rest
      (c :: m, s)

/-- Truthiness of an optional string field (`None` and `""` are falsy). -/
def truthyOpt : Option String → Bool
  | none => false
  | some s => !(s = "" : Bool)

/-- `_guess_content_type(filename, explicit)`; `mimeGuess` models the
`mimetypes.guess_type` table lookup. -/
def guessContentType (mimeGuess : String → Option String)
    (filename : String) (explicit : Option String) : String × String :=
  if truthyOpt explicit && (explicit.getD "").data.contains '/' then
    let (m, s) := splitSlashOnce (explicit.getD "").data
    (⟨m⟩, ⟨s⟩)
  else
    match mimeGuess filename with
    | some guessed =>
      if guessed.data.contains '/' then
        let (m, s) := splitSlashOnce guessed.data
        (⟨m⟩, ⟨s⟩)
      else ("application", "octet-stream")
    | none => ("application", "octet-stream")

/-! ## Attachment loader (`_read_attachment_bytes`) -/

/-- One attachment descriptor (the Python dict); a missing key is `none`. -/
structure Attachment where
  filename : Option String
  path : Option String
  content_base64 : Option String
  content_type : Option String
  deriving DecidableEq, Repr

/-- The filesystem as seen by the loader: canonicalisation
(`os.path.realpath`), regular-file test (`os.path.isfile`), stat size
(`os.path.getsize`) and file contents (`open(...).read()`).  Stat size
and content length may disagree (the TOCTOU window the source guards). -/
structure FS where
  realpath : List Char → List Char
  isfile : String → Bool
  getsize : String → Int
  readFile : String → List Nat

/-- `_read_attachment_bytes(att, index, limit_bytes)`. -/
def readAttachmentBytes (fs : FS) (allowedDir : String)
    (att : Attachment) (index : Nat) (limitBytes : Int) :
    Except AttachErr (String × List Nat × Option String) :=
  let filename := pyStrip (att.filename.getD "")
  -- `str(content_type) if content_type else None`: a falsy value becomes `None`
  let ctOut := if truthyOpt att.content_type then att.content_type else none
  if filename = "" then .error (.missingFilename index)
  else
    if truthyOpt att.path then
      match resolveAndValidateAttachmentPath fs.realpath allowedDir
          (att.path.getD "") with
      | .error e => .error e
      | .ok safePath =>
        if !fs.isfile safePath then .error (.fileNotFound safePath)
        else
          match enforceAttachmentLimit filename (fs.getsize safePath) limitBytes with
          | .error e => .error e
          | .ok _ =>
            let payload := fs.readFile safePath
            match enforceAttachmentLimit filename (payload.length : Int) limitBytes with
            | .error e => .error e
            | .ok _ => .ok (filename, payload, ctOut)
    else if truthyOpt att.content_base64 then
      let content := att.content_base64.getD ""
      let est := estimatedBase64DecodedSize content
      match enforceAttachmentLimit filename est limitBytes with
      | .error e => .error e
      | .ok _ =>
        match b64DecodeCanonical content.data with
        | none => .error (.invalidBase64 filename)
        | some payload =>
          match enforceAttachmentLimit filename (payload.length : Int) limitBytes with
          | .error e => .error e
          | .ok _ => .ok (filename, payload, ctOut)
    else .error (.missingSource filename)

/-! ## The command (`SendHTMLEmail.execute`) -/

/-- The constructor arguments of `SendHTMLEmail`. -/
structure EmailInput where
  smtp_host : String
  smtp_port : Int
  email_subject : String
  email_body : String
  email_to : String
  email_from : String
  smtp_user : Option String
  smtp_password : Option String
  smtp_starttls : Bool
  email_body_html : Option String
  email_cc : Option String
  email_bcc : Option String
  email_reply_to : Option String
  attachments : List Attachment
  deriving Repr

/-- A resolved attachment as added to the message. -/
structure ResolvedAtt where
  filename : String
  payload : List Nat
  maintype : String
  subtype : String
  deriving DecidableEq, Repr

/-- The assembled `EmailMessage`: header fields in the order the source
sets them, the plain body, the optional HTML alternative, and the
attachment parts in input order. -/
structure EmailMsg where
  headers : List (String × String)
  plainBody : String
  htmlAlt : Option String
  attachments : List ResolvedAtt
  deriving DecidableEq, Repr

/-- Header assembly of `execute` (lines 263-277): Subject, From, To,
then Cc and Reply-To only when truthy.  Bcc is never set. -/
def buildHeaders (inp : EmailInput) : List (String × String) :=
  [("Subject", inp.email_subject), ("From", inp.email_from), ("To", inp.email_to)]
    ++ (if truthyOpt inp.email_cc then [("Cc", inp.email_cc.getD "")] else [])
    ++ (if truthyOpt inp.email_reply_to then [("Reply-To", inp.email_reply_to.getD "")] else [])

/-- The full assembled message for a given list of resolved attachments. -/
def buildMessage (inp : EmailInput) (atts : List ResolvedAtt) : EmailMsg :=
  { headers := buildHeaders inp
    plainBody := inp.email_body
    htmlAlt := if truthyOpt inp.email_body_html then inp.email_body_html else none
    attachments := atts }

/-- Classification of a delivery-stage failure (`SMTP(...)`,
`starttls`, `login`, `send_message`). -/
inductive SmtpErr
  | connect
  | starttls
  | login
  | send
  deriving DecidableEq, Repr

/-- One log line; one constructor per f-string appended to `logs`. -/
inductive LogEntry
  | allowedDir (path : String)
  | sizeLimit (limitBytes : Int)
  | attached (filename maintype subtype : String) (bytes : Nat)
  | attachError (e : AttachErr)
  | willSend (timeoutSeconds : Int)
  | willStarttls
  | willLogin
  | didLogin
  | didSend (recipients : Nat)
  | didError (e : SmtpErr)
  deriving DecidableEq, Repr

/-- The terminal error of a response, structurally. -/
inductive RespError
  | attach (e : AttachErr)
  | noRecipients
  | smtp (e : SmtpErr)
  deriving DecidableEq, Repr

/-- The returned `ConnectorProxyResponseDict`: the body is always the
literal `"{}"`, the outcome is carried by `error` and `logs`. -/
structure Response where
  body : String
  error : Option RespError
  logs : List LogEntry
  deriving DecidableEq, Repr

/-- Which transport stages would succeed, modelling the SMTP server. -/
structure SmtpWorld where
  connectOk : Bool
  starttlsOk : Bool
  loginOk : Bool
  sendOk : Bool

/-- The attachment loop of `execute` (lines 283-292): resolve each
descriptor in order, log one `attached` line per success, stop at the
first error and log it (`attachment error: ...`). -/
def attachLoop (fs : FS) (allowedDir : String) (limitBytes : Int)
    (mimeGuess : String → Option String) :
    List Attachment → Nat → List LogEntry × Except AttachErr (List ResolvedAtt)
  | [], _ => ([], .ok [])
  | a :: rest, i =>
    match readAttachmentBytes fs allowedDir a i limitBytes with
    | .error e => ([.attachError e], .error e)
    | .ok (fn, payload, explicitCt) =>
      let mtst := guessContentType mimeGuess fn explicitCt
      let tail := attachLoop fs allowedDir limitBytes mimeGuess rest (i + 1)
      (.attached fn mtst.1 mtst.2 payload.length :: tail.1,
        tail.2.map (fun l => ⟨fn, payload, mtst.1, mtst.2⟩ :: l))

/-- The protocol-level recipient list (lines 303-306). -/
def envelopeRecipients (inp : EmailInput) : List String :=
  dedupeKeepOrder (splitRecipients (some inp.email_to)
    ++ splitRecipients inp.email_cc ++ splitRecipients inp.email_bcc)

/-- The `try` block around the SMTP session (lines 317-333): log
`will send`, connect, optionally STARTTLS, optionally log in (only when
both user and password are truthy), send; the first failing stage logs
`did error` and becomes the terminal error. -/
def smtpSession (w : SmtpWorld) (inp : EmailInput) (timeout : Int)
    (nRecipients : Nat) : List LogEntry × Option SmtpErr :=
  if !w.connectOk then
    ([.willSend timeout, .didError .connect], some .connect)
  else
    let (tlsLogs, tlsErr) :=
      if inp.smtp_starttls then
        if w.starttlsOk then ([LogEntry.willStarttls], (none : Option SmtpErr))
        else ([LogEntry.willStarttls, .didError .starttls], some .starttls)
      else ([], none)
    match tlsErr with
    | some e => (.willSend timeout :: tlsLogs, some e)
    | none =>
      let (authLogs, authErr) :=
        if truthyOpt inp.smtp_user && truthyOpt inp.smtp_password then
          if w.loginOk then ([LogEntry.willLogin, .didLogin], (none : Option SmtpErr))
          else ([LogEntry.willLogin, .didError .login], some .login)
        else ([], none)
      match authErr with
      | some e => (.willSend timeout :: tlsLogs ++ authLogs, some e)
      | none =>
        if w.sendOk then
          (.willSend timeout :: tlsLogs ++ authLogs ++ [.didSend nRecipients], none)
        else
          (.willSend timeout :: tlsLogs ++ authLogs ++ [.didError .send], some .send)

/-- The environment the command reads: the allowed attachments directory,
the two limit settings, and the `mimetypes` table. -/
structure Env where
  allowedDir : String
  attachmentsLimitRaw : Option String
  smtpTimeoutRaw : Option String
  mimeGuess : String → Option String

/-- `SendHTMLEmail.execute`, returning the response together with a flag
recording whether an SMTP connection was attempted at all. -/
def executeCore (env : Env) (fs : FS) (w : SmtpWorld) (inp : EmailInput) :
    Response × Bool :=
  let limitBytes := getAttachmentsLimitBytes env.attachmentsLimitRaw
  let timeout := getSmtpTimeoutSeconds env.smtpTimeoutRaw
  let baseLogs : List LogEntry :=
    [.allowedDir ⟨fs.realpath env.allowedDir.data⟩, .sizeLimit limitBytes]
  let ar := attachLoop fs env.allowedDir limitBytes env.mimeGuess inp.attachments 0
  match ar.2 with
  | .error e =>
    ({ body := "{}", error := some (.attach e), logs := baseLogs ++ ar.1 }, false)
  | .ok _ =>
    let rcpts := envelopeRecipients inp
    if rcpts = [] then
      ({ body := "{}", error := some .noRecipients, logs := baseLogs ++ ar.1 }, false)
    else
      let sr := smtpSession w inp timeout rcpts.length
      ({ body := "{}", error := sr.2.map .smtp, logs := baseLogs ++ ar.1 ++ sr.1 }, true)

/-- A fixed, fully populated required-field input used for concrete
examples; optional fields are absent. -/
def sampleInput : EmailInput :=
  { smtp_host := "smtp.example.com"
    smtp_port := 25
    email_subject := "Hello"
    email_body := "Body"
    email_to := "a@x"
    email_from := "from@x"
    smtp_user := none
    smtp_password := none
    smtp_starttls := false
    email_body_html := none
    email_cc := none
    email_bcc := none
    email_reply_to := none
    attachments := [] }

/-! ## Lemmas on `_dedupe_keep_order` -/

theorem mem_dedupeAux (x : String) :
    ∀ (l seen : List String), x ∈ dedupeAux seen l ↔ x ∈ l ∧ x ∉ seen := by
  intro l
  induction l with
  | nil => intro seen; simp [dedupeAux]
  | cons y ys ih =>
    intro seen
    by_cases hy : y ∈ seen
    · rw [show dedupeAux seen (y :: ys) = dedupeAux seen ys by
        simp [dedupeAux, if_pos hy], ih seen]
      constructor
      · rintro ⟨hx, hs⟩
        exact ⟨List.mem_cons_of_mem _ hx, hs⟩
      · rintro ⟨hx, hs⟩
        rcases List.mem_cons.mp hx with rfl | hx
        · exact absurd hy hs
        · exact ⟨hx, hs⟩
    · rw [show dedupeAux seen (y :: ys) = y :: dedupeAux (y :: seen) ys by
        simp [dedupeAux, if_neg hy]]
      constructor
      · intro hmem
        rcases List.mem_cons.mp hmem with rfl | hmem
        · exact ⟨List.mem_cons_self _ _, hy⟩
        · obtain ⟨hx, hs⟩ := (ih (y :: seen)).mp hmem
          exact ⟨List.mem_cons_of_mem _ hx,
            fun h => hs (List.mem_cons_of_mem _ h)⟩
      · rintro ⟨hx, hs⟩
        rcases List.mem_cons.mp hx with rfl | hx
        · exact List.mem_cons_self _ _
        · by_cases hxy : x = y
          · subst hxy; exact List.mem_cons_self _ _
          · refine List.mem_cons_of_mem _ ((ih (y :: seen)).mpr ⟨hx, fun h => ?_⟩)
            rcases List.mem_cons.mp h with h' | h'
            · exact hxy h'
            · exact hs h'

theorem nodup_dedupeAux :
    ∀ (l seen : List String), (dedupeAux seen l).Nodup := by
  intro l
  induction l with
  | nil => intro seen; simp [dedupeAux]
  | cons y ys ih =>
    intro seen
    by_cases hy : y ∈ seen
    · simpa [dedupeAux, if_pos hy] using ih seen
    · rw [show dedupeAux seen (y :: ys) = y :: dedupeAux (y :: seen) ys by
        simp [dedupeAux, if_neg hy]]
      refine List.nodup_cons.mpr ⟨?_, ih (y :: seen)⟩
      intro hmem
      exact ((mem_dedupeAux y ys (y :: seen)).mp hmem).2 (List.mem_cons_self y seen)

theorem sublist_dedupeAux :
    ∀ (l seen : List String), List.Sublist (dedupeAux seen l) l := by
  intro l
  induction l with
  | nil => intro seen; simp [dedupeAux]
  | cons y ys ih =>
    intro seen
    by_cases hy : y ∈ seen
    · simpa [dedupeAux, if_pos hy] using List.Sublist.cons y (ih seen)
    · simpa [dedupeAux, if_neg hy] using List.Sublist.cons₂ y (ih (y :: seen))

/-- Dropping a later duplicate does not change the deduplicated list. -/
theorem dedupeAux_drop_dup (x : String) (l₂ : List String) :
    ∀ (l₁ seen : List String), x ∈ seen ∨ x ∈ l₁ →
      dedupeAux seen (l₁ ++ x :: l₂) = dedupeAux seen (l₁ ++ l₂) := by
  intro l₁
  induction l₁ with
  | nil =>
    intro seen h
    rcases h with h | h
    · simp [dedupeAux, if_pos h]
    · simp at h
  | cons y ys ih =>
    intro seen h
    by_cases hy : y ∈ seen
    · simp only [List.cons_append, dedupeAux, if_pos hy]
      refine ih seen ?_
      rcases h with h | h
      · exact Or.inl h
      · rcases List.mem_cons.mp h with rfl | h
        · exact Or.inl hy
        · exact Or.inr h
    · simp only [List.cons_append, dedupeAux, if_neg hy]
      refine congrArg _ (ih (y :: seen) ?_)
      rcases h with h | h
      · exact Or.inl (List.mem_cons_of_mem _ h)
      · rcases List.mem_cons.mp h with rfl | h
        · exact Or.inl (List.mem_cons_self _ _)
        · exact Or.inr h

/-- C8: recipient resolution splits To/Cc/Bcc on `,` and `;`, trims and
drops empty tokens, concatenates To then Cc then Bcc, and deduplicates
stably: the result is duplicate-free, keeps first-occurrence order (it is
a sublist of the concatenation), has exactly the members of the
concatenation, is unchanged when a repeated entry is dropped anywhere
after its first occurrence, and
`resolveEnvelope("a@x,a@x", "a@x", "")` yields `["a@x"]`. -/
theorem recipient_resolution_stable_dedupe :
    (∀ inp : EmailInput, envelopeRecipients inp =
      dedupeKeepOrder (splitRecipients (some inp.email_to)
        ++ splitRecipients inp.email_cc ++ splitRecipients inp.email_bcc)) ∧
    (∀ l : List String, (dedupeKeepOrder l).Nodup) ∧
    (∀ l : List String, List.Sublist (dedupeKeepOrder l) l) ∧
    (∀ (l : List String) (x : String), x ∈ dedupeKeepOrder l ↔ x ∈ l) ∧
    (∀ (l₁ l₂ : List String) (x : String), x ∈ l₁ →
      dedupeKeepOrder (l₁ ++ x :: l₂) = dedupeKeepOrder (l₁ ++ l₂)) ∧
    splitRecipients (some " a@x; b@y ,c@z ") = ["a@x", "b@y", "c@z"] ∧
    envelopeRecipients { sampleInput with
      email_to := "a@x,a@x", email_cc := some "a@x", email_bcc := some "" }
      = ["a@x"] := by
  refine ⟨fun _ => rfl, fun l => nodup_dedupeAux l [], fun l => sublist_dedupeAux l [],
    ?_, ?_, by decide, by decide⟩
  · intro l x
    rw [dedupeKeepOrder, mem_dedupeAux]
    simp
  · intro l₁ l₂ x hx
    exact dedupeAux_drop_dup x l₂ l₁ [] (Or.inr hx)

/-- Witness for C8 at concrete inputs: dropping the duplicate `"a@x"`
does not change the result, and the concrete envelope is `["a@x"]`. -/
theorem recipient_resolution_stable_dedupe_witness :
    dedupeKeepOrder (["a@x"] ++ "a@x" :: ["b@y"]) = dedupeKeepOrder (["a@x"] ++ ["b@y"]) ∧
    envelopeRecipients { sampleInput with
      email_to := "a@x,a@x", email_cc := some "a@x", email_bcc := some "" }
      = ["a@x"] :=
  ⟨recipient_resolution_stable_dedupe.2.2.2.2.1 ["a@x"] ["b@y"] "a@x" (by decide),
    recipient_resolution_stable_dedupe.2.2.2.2.2.2⟩

/-! ## Lemmas on limit resolution -/

theorem envInt_some (s : String) (d : Int) :
    envInt (some s) d =
      if pyStrip s = "" then d else (pyParseInt (pyStrip s).data).getD d := rfl

theorem pyParseInt_nil : pyParseInt [] = none := rfl

/-- A successful parse forces a non-empty string. -/
theorem pyParseInt_ne_nil {l : List Char} {v : Int}
    (h : pyParseInt l = some v) : l ≠ [] := by
  intro hnil; subst hnil; simp [pyParseInt, pyParseNat] at h

theorem envInt_of_parse {s : String} {v d : Int}
    (h : pyParseInt (pyStrip s).data = some v) : envInt (some s) d = v := by
  rw [envInt_some]
  have hne : pyStrip s ≠ "" := by
    intro he
    exact pyParseInt_ne_nil (he ▸ h) rfl
  rw [if_neg hne, h, Option.getD_some]

/-- C6: limit resolution is total and never raises.  The attachment cap
reads `M8FLOW_CONNECTOR_SMTP_ATTACHMENTS_LIMIT_IN_MB` (default 100 MB):
an absent, blank or non-numeric value gives the default, a value ≤ 0
gives the default, and otherwise the result is `min(requested, 100)` MB.
The SMTP timeout reads `M8FLOW_CONNECTOR_SMTP_TIMEOUT_SECONDS` (default
30 s) the same way and reverts to the default when the value is ≤ 0. -/
theorem limit_resolution_total :
    (getAttachmentsLimitBytes none = 100 * 1024 * 1024) ∧
    (∀ s : String, pyStrip s = "" →
      getAttachmentsLimitBytes (some s) = 100 * 1024 * 1024) ∧
    (∀ s : String, pyParseInt (pyStrip s).data = none →
      getAttachmentsLimitBytes (some s) = 100 * 1024 * 1024) ∧
    (∀ (s : String) (v : Int), pyParseInt (pyStrip s).data = some v → v ≤ 0 →
      getAttachmentsLimitBytes (some s) = 100 * 1024 * 1024) ∧
    (∀ (s : String) (v : Int), pyParseInt (pyStrip s).data = some v → 0 < v →
      getAttachmentsLimitBytes (some s) = min v 100 * 1024 * 1024) ∧
    (getSmtpTimeoutSeconds none = 30) ∧
    (∀ s : String, pyStrip s = "" → getSmtpTimeoutSeconds (some s) = 30) ∧
    (∀ s : String, pyParseInt (pyStrip s).data = none →
      getSmtpTimeoutSeconds (some s) = 30) ∧
    (∀ (s : String) (v : Int), pyParseInt (pyStrip s).data = some v → v ≤ 0 →
      getSmtpTimeoutSeconds (some s) = 30) ∧
    (∀ (s : String) (v : Int), pyParseInt (pyStrip s).data = some v → 0 < v →
      getSmtpTimeoutSeconds (some s) = v) := by
  refine ⟨rfl, ?_, ?_, ?_, ?_, rfl, ?_, ?_, ?_, ?_⟩
  · intro s hs
    simp [getAttachmentsLimitBytes, envInt_some, hs, DEFAULT_ATTACHMENTS_LIMIT_MB,
      HARD_ATTACHMENTS_LIMIT_MB]
  · intro s hp
    by_cases hs : pyStrip s = ""
    · simp [getAttachmentsLimitBytes, envInt_some, hs, DEFAULT_ATTACHMENTS_LIMIT_MB,
        HARD_ATTACHMENTS_LIMIT_MB]
    · simp [getAttachmentsLimitBytes, envInt_some, hs, hp, DEFAULT_ATTACHMENTS_LIMIT_MB,
        HARD_ATTACHMENTS_LIMIT_MB]
  · intro s v hp hv
    rw [getAttachmentsLimitBytes, envInt_of_parse hp]
    simp [hv, DEFAULT_ATTACHMENTS_LIMIT_MB, HARD_ATTACHMENTS_LIMIT_MB]
  · intro s v hp hv
    rw [getAttachmentsLimitBytes, envInt_of_parse hp]
    rw [if_neg (by omega), HARD_ATTACHMENTS_LIMIT_MB]
  · intro s hs
    simp [getSmtpTimeoutSeconds, envInt_some, hs, DEFAULT_SMTP_TIMEOUT_SECONDS]
  · intro s hp
    by_cases hs : pyStrip s = ""
    · simp [getSmtpTimeoutSeconds, envInt_some, hs, DEFAULT_SMTP_TIMEOUT_SECONDS]
    · simp [getSmtpTimeoutSeconds, envInt_some, hs, hp, DEFAULT_SMTP_TIMEOUT_SECONDS]
  · intro s v hp hv
    rw [getSmtpTimeoutSeconds, envInt_of_parse hp]
    simp [hv, DEFAULT_SMTP_TIMEOUT_SECONDS]
  · intro s v hp hv
    rw [getSmtpTimeoutSeconds, envInt_of_parse hp, if_neg (by omega)]

/-- Witness for C6: the concrete settings `" 50 "` (clamps to 50 MB) and
`"45"` (timeout 45 s) take the parsed-positive branch. -/
theorem limit_resolution_total_witness :
    getAttachmentsLimitBytes (some " 50 ") = min 50 100 * 1024 * 1024 ∧
    getSmtpTimeoutSeconds (some "45") = 45 :=
  ⟨limit_resolution_total.2.2.2.2.1 " 50 " 50 (by decide) (by decide),
    limit_resolution_total.2.2.2.2.2.2.2.2.2 "45" 45 (by decide) (by decide)⟩

/-! ## C7: the attachment cap is clamped, the timeout is not -/

/-- `"1"` followed by `n` zeros, a configuration string parsing to `10^n`. -/
def pow10Raw (n : Nat) : String :=
  ⟨'1' :: List.replicate n '0'⟩

theorem pyDigitsAux_replicate_zero :
    ∀ (n : Nat) (acc : Nat),
      pyDigitsAux acc (List.replicate n '0') = some (acc * 10 ^ n) := by
  intro n
  induction n with
  | zero => intro acc; simp [pyDigitsAux]
  | succ m ih =>
    intro acc
    rw [List.replicate_succ]
    have h0 : pyDigitsAux acc ('0' :: List.replicate m '0')
        = pyDigitsAux (acc * 10 + ('0'.toNat - 48)) (List.replicate m '0') := by
      cases m <;> simp [pyDigitsAux]
    rw [h0, show '0'.toNat - 48 = 0 from rfl, Nat.add_zero, ih]
    rw [pow_succ]
    ring_nf

theorem pyParseNat_pow10 (n : Nat) :
    pyParseNat ('1' :: List.replicate n '0') = some (10 ^ n) := by
  have h1 : pyParseNat ('1' :: List.replicate n '0')
      = pyDigitsAux ('1'.toNat - 48) (List.replicate n '0') := by
    simp [pyParseNat]
  rw [h1, show '1'.toNat - 48 = 1 from rfl, pyDigitsAux_replicate_zero, one_mul]

theorem pyParseInt_pow10 (n : Nat) :
    pyParseInt ('1' :: List.replicate n '0') = some ((10 : Int) ^ n) := by
  have h1 : pyParseInt ('1' :: List.replicate n '0')
      = (pyParseNat ('1' :: List.replicate n '0')).map (fun k => (k : Int)) := by
    simp [pyParseInt]
  rw [h1, pyParseNat_pow10]
  simp

theorem dropWhile_eq_self_of_all {p : Char → Bool} :
    ∀ l : List Char, (∀ c ∈ l, p c = false) → l.dropWhile p = l := by
  intro l h
  cases l with
  | nil => rfl
  | cons a t =>
    rw [List.dropWhile_cons, h a (List.mem_cons_self a t)]
    simp

theorem pyStripL_of_no_ws {l : List Char} (h : ∀ c ∈ l, isPyWs c = false) :
    pyStripL l = l := by
  unfold pyStripL
  rw [dropWhile_eq_self_of_all l h,
    dropWhile_eq_self_of_all l.reverse (fun c hc => h c (List.mem_reverse.mp hc)),
    List.reverse_reverse]

theorem getSmtpTimeoutSeconds_pow10 (n : Nat) :
    getSmtpTimeoutSeconds (some (pow10Raw n)) = (10 : Int) ^ n := by
  have hd : (pyStrip (pow10Raw n)).data = '1' :: List.replicate n '0' := by
    show pyStripL ('1' :: List.replicate n '0') = _
    refine pyStripL_of_no_ws ?_
    intro c hc
    rcases List.mem_cons.mp hc with rfl | hc
    · rfl
    · rw [List.eq_of_mem_replicate hc]; rfl
  have hp : pyParseInt (pyStrip (pow10Raw n)).data = some ((10 : Int) ^ n) := by
    rw [hd]; exact pyParseInt_pow10 n
  rw [getSmtpTimeoutSeconds, envInt_of_parse hp,
    if_neg (not_le.mpr (by positivity))]

/-- C7 counterexample: it is false that both resolved values are bounded
by fixed hard ceilings — the SMTP timeout resolver is unbounded (setting
the timeout variable to `1` followed by enough zeros exceeds any bound). -/
theorem limits_hard_ceiling_refuted :
    ¬ ((∃ M : Int, ∀ raw : Option String, getAttachmentsLimitBytes raw ≤ M) ∧
       (∃ M : Int, ∀ raw : Option String, getSmtpTimeoutSeconds raw ≤ M)) := by
  rintro ⟨-, M, hM⟩
  have h := hM (some (pow10Raw (M.toNat + 1)))
  rw [getSmtpTimeoutSeconds_pow10] at h
  have h1 : (M : Int) ≤ (M.toNat : Int) := Int.self_le_toNat M
  have h2 : (M.toNat : Nat) < 10 ^ (M.toNat + 1) :=
    lt_of_lt_of_le (Nat.lt_pow_self (by norm_num) M.toNat)
      (Nat.pow_le_pow_right (by norm_num) (Nat.le_succ _))
  have h3 : ((M.toNat : Int)) < (10 : Int) ^ (M.toNat + 1) := by
    exact_mod_cast h2
  linarith

/-- C7 (amended): the attachment cap is clamped to the 100 MB hard
ceiling (and is always positive), while the SMTP timeout is only floored
— it is always positive but exceeds every fixed bound for a suitable
configured value. -/
theorem attachment_cap_clamped_timeout_unbounded :
    (∀ raw : Option String, getAttachmentsLimitBytes raw ≤ 100 * 1024 * 1024) ∧
    (∀ raw : Option String, 0 < getAttachmentsLimitBytes raw) ∧
    (∀ raw : Option String, 0 < getSmtpTimeoutSeconds raw) ∧
    (∀ M : Int, ∃ raw : Option String, M < getSmtpTimeoutSeconds raw) := by
  have cap : ∀ raw : Option String,
      0 < getAttachmentsLimitBytes raw ∧
        getAttachmentsLimitBytes raw ≤ 100 * 1024 * 1024 := by
    intro raw
    unfold getAttachmentsLimitBytes DEFAULT_ATTACHMENTS_LIMIT_MB HARD_ATTACHMENTS_LIMIT_MB
    set r := envInt raw 100 with hr
    dsimp only
    by_cases h : r ≤ 0
    · rw [if_pos h]; norm_num
    · rw [if_neg h]
      have h1 : (1 : Int) ≤ min r 100 := le_min (by omega) (by norm_num)
      have h2 : min r 100 ≤ 100 := min_le_right _ _
      omega
  refine ⟨fun raw => (cap raw).2, fun raw => (cap raw).1, ?_, ?_⟩
  · intro raw
    unfold getSmtpTimeoutSeconds DEFAULT_SMTP_TIMEOUT_SECONDS
    set t := envInt raw 30
    dsimp only
    by_cases h : t ≤ 0
    · rw [if_pos h]; norm_num
    · rw [if_neg h]; omega
  · intro M
    refine ⟨some (pow10Raw (M.toNat + 1)), ?_⟩
    rw [getSmtpTimeoutSeconds_pow10]
    have h1 : (M : Int) ≤ (M.toNat : Int) := Int.self_le_toNat M
    have h2 : (M.toNat : Nat) < 10 ^ (M.toNat + 1) :=
      lt_of_lt_of_le (Nat.lt_pow_self (by norm_num) M.toNat)
        (Nat.pow_le_pow_right (by norm_num) (Nat.le_succ _))
    have h3 : ((M.toNat : Int)) < (10 : Int) ^ (M.toNat + 1) := by
      exact_mod_cast h2
    linarith

/-! ## C3: size limit enforcement -/

/-- On a validated, existing file the loader is exactly the two
limit checks (stat size first, then actual byte length) followed by
success. -/
theorem readAttachmentBytes_path_eq (fs : FS) (root : String)
    (att : Attachment) (i : Nat) (L : Int)
    (hfn : pyStrip (att.filename.getD "") ≠ "")
    (hpath : truthyOpt att.path = true)
    {sp : String}
    (hres : resolveAndValidateAttachmentPath fs.realpath root (att.path.getD "") = .ok sp)
    (hfile : fs.isfile sp = true) :
    readAttachmentBytes fs root att i L =
      match enforceAttachmentLimit (pyStrip (att.filename.getD "")) (fs.getsize sp) L with
      | .error e => .error e
      | .ok _ =>
        match enforceAttachmentLimit (pyStrip (att.filename.getD ""))
            ((fs.readFile sp).length : Int) L with
        | .error e => .error e
        | .ok _ => .ok (pyStrip (att.filename.getD ""), fs.readFile sp,
            if truthyOpt att.content_type then att.content_type else none) := by
  simp only [readAttachmentBytes, if_neg hfn, hpath, if_true, hres, hfile]
  rfl

/-- C3: for every effective limit `L` in `(0, hardCap]`, an attachment
larger than `L` is rejected with the too-large error and one of size at
most `L` passes the size check (equality at the boundary passes); for a
path attachment the limit is enforced twice — a stat size over `L`
rejects before reading, an actual byte length over `L` rejects after
reading, and the loader succeeds exactly when both are at most `L`. -/
theorem attachment_limit_boundary :
    (∀ (L : Int), 0 < L → L ≤ 100 * 1024 * 1024 →
      ∀ (name : String) (size : Int),
        (L < size →
          enforceAttachmentLimit name size L = .error (.tooLarge name size L)) ∧
        (size ≤ L → enforceAttachmentLimit name size L = .ok ())) ∧
    (∀ (fs : FS) (root : String) (att : Attachment) (i : Nat) (L : Int)
        (sp : String),
        0 < L → L ≤ 100 * 1024 * 1024 →
        pyStrip (att.filename.getD "") ≠ "" →
        truthyOpt att.path = true →
        resolveAndValidateAttachmentPath fs.realpath root (att.path.getD "") = .ok sp →
        fs.isfile sp = true →
        (L < fs.getsize sp →
          readAttachmentBytes fs root att i L =
            .error (.tooLarge (pyStrip (att.filename.getD "")) (fs.getsize sp) L)) ∧
        (fs.getsize sp ≤ L → L < ((fs.readFile sp).length : Int) →
          readAttachmentBytes fs root att i L =
            .error (.tooLarge (pyStrip (att.filename.getD ""))
              ((fs.readFile sp).length : Int) L)) ∧
        (fs.getsize sp ≤ L → ((fs.readFile sp).length : Int) ≤ L →
          readAttachmentBytes fs root att i L =
            .ok (pyStrip (att.filename.getD ""), fs.readFile sp,
              if truthyOpt att.content_type then att.content_type else none))) := by
  constructor
  · intro L _ _ name size
    constructor
    · intro hgt
      rw [enforceAttachmentLimit, if_pos (by omega)]
    · intro hle
      rw [enforceAttachmentLimit, if_neg (by omega)]
  · intro fs root att i L sp _ _ hfn hpath hres hfile
    rw [readAttachmentBytes_path_eq fs root att i L hfn hpath hres hfile]
    refine ⟨?_, ?_, ?_⟩
    · intro hstat
      rw [enforceAttachmentLimit, if_pos (by omega)]
    · intro hstat hlen
      rw [enforceAttachmentLimit, if_neg (by omega), enforceAttachmentLimit,
        if_pos (by omega)]
    · intro hstat hlen
      rw [enforceAttachmentLimit, if_neg (by omega), enforceAttachmentLimit,
        if_neg (by omega)]

/-- A concrete filesystem: a three-byte regular file
`/attachments/report.pdf`, no symlinks. -/
def sampleFS : FS :=
  { realpath := lexRealpath
    isfile := fun p => p = "/attachments/report.pdf"
    getsize := fun p => if p = "/attachments/report.pdf" then 3 else 0
    readFile := fun p => if p = "/attachments/report.pdf" then [1, 2, 3] else [] }

/-- A concrete path-sourced descriptor for `/attachments/report.pdf`. -/
def sampleAtt : Attachment :=
  { filename := some "report.pdf"
    path := some "/attachments/report.pdf"
    content_base64 := none
    content_type := some "application/pdf" }

/-- Witness for C3 at the boundary: with limit exactly 3 bytes the
three-byte file is accepted, and with limit 2 it is rejected as too
large before reading. -/
theorem attachment_limit_boundary_witness :
    readAttachmentBytes sampleFS "/attachments" sampleAtt 0 3 =
      .ok ("report.pdf", [1, 2, 3], some "application/pdf") ∧
    readAttachmentBytes sampleFS "/attachments" sampleAtt 0 2 =
      .error (.tooLarge "report.pdf" 3 2) := by
  have h1 := (attachment_limit_boundary.2 sampleFS "/attachments" sampleAtt 0 3
    "/attachments/report.pdf" (by decide) (by decide) (by decide) (by decide)
    (by rfl) (by decide)).2.2 (by decide) (by decide)
  have h2 := (attachment_limit_boundary.2 sampleFS "/attachments" sampleAtt 0 2
    "/attachments/report.pdf" (by decide) (by decide) (by decide) (by decide)
    (by rfl) (by decide)).1 (by decide)
  exact ⟨by rw [h1]; rfl, by rw [h2]; rfl⟩

/-! ## C2: the pre-decode size estimate is exact on valid base64 -/

theorem b64Val_ws_none {c : Char} (h : isPyWs c = true) : b64Val c = none := by
  simp only [isPyWs, Bool.or_eq_true, decide_eq_true_eq] at h
  rcases h with ((((h | h) | h) | h) | h) | h <;> subst h <;> rfl

theorem b64Val_not_ws {c : Char} {v : Nat} (h : b64Val c = some v) :
    isPyWs c = false := by
  cases hws : isPyWs c
  · rfl
  · rw [b64Val_ws_none hws] at h; cases h

theorem b64Val_ne_pad {c : Char} {v : Nat} (h : b64Val c = some v) : c ≠ '=' := by
  rintro rfl
  rw [show b64Val '=' = none from rfl] at h
  cases h

theorem b64DecodeCanonical_shape {l : List Char} {bs : List Nat}
    (h : b64DecodeCanonical l = some bs) : l = [] ∨ 4 ≤ l.length := by
  rcases l with _ | ⟨a, _ | ⟨b, _ | ⟨c, _ | ⟨d, r⟩⟩⟩⟩
  · exact Or.inl rfl
  · rw [show b64DecodeCanonical [a] = none from rfl] at h; cases h
  · rw [show b64DecodeCanonical [a, b] = none from rfl] at h; cases h
  · rw [show b64DecodeCanonical [a, b, c] = none from rfl] at h; cases h
  · right; simp

theorem b64PaddingOf_append {p r : List Char} (hr : 2 ≤ r.length) :
    b64PaddingOf (p ++ r) = b64PaddingOf r := by
  obtain ⟨x, y, t, hrv⟩ : ∃ x y t, r.reverse = x :: y :: t := by
    rcases hc : r.reverse with _ | ⟨x, _ | ⟨y, t⟩⟩
    · exfalso
      have h0 := congrArg List.length hc
      rw [List.length_reverse] at h0
      simp only [List.length_nil] at h0
      omega
    · exfalso
      have h0 := congrArg List.length hc
      rw [List.length_reverse] at h0
      simp only [List.length_cons, List.length_nil] at h0
      omega
    · exact ⟨x, y, t, rfl⟩
  unfold b64PaddingOf List.isSuffixOf
  rw [List.reverse_append, hrv]
  simp [List.isPrefixOf]

theorem b64PaddingOf_dd (a b : Char) : b64PaddingOf [a, b, '=', '='] = 2 := by
  simp [b64PaddingOf, List.isSuffixOf, List.isPrefixOf]

theorem b64PaddingOf_one {a b c : Char} (hc : c ≠ '=') :
    b64PaddingOf [a, b, c, '='] = 1 := by
  simp [b64PaddingOf, List.isSuffixOf, List.isPrefixOf, beq_iff_eq, Ne.symm hc]

theorem b64PaddingOf_zero {a b c d : Char} (hd : d ≠ '=') :
    b64PaddingOf [a, b, c, d] = 0 := by
  simp [b64PaddingOf, List.isSuffixOf, List.isPrefixOf, beq_iff_eq, Ne.symm hd]

/-- On any input the canonical decoder accepts, every character is
non-whitespace and the padding-corrected length formula gives exactly the
decoded byte count. -/
theorem b64DecodeCanonical_core :
    ∀ (n : Nat) (l : List Char), l.length ≤ n → ∀ bs : List Nat,
      b64DecodeCanonical l = some bs →
      (∀ c ∈ l, isPyWs c = false) ∧
      ((l.length : Int) * 3) / 4 - b64PaddingOf l = (bs.length : Int) := by
  intro n
  induction n with
  | zero =>
    intro l hl bs h
    have hnil : l = [] := List.eq_nil_of_length_eq_zero (Nat.le_zero.mp hl)
    subst hnil
    rw [show b64DecodeCanonical [] = some [] from rfl] at h
    injection h with h'
    subst h'
    exact ⟨by simp, by decide⟩
  | succ m ih =>
    intro l hl bs h
    rcases l with _ | ⟨a, _ | ⟨b, _ | ⟨c, _ | ⟨d, rest⟩⟩⟩⟩
    · rw [show b64DecodeCanonical [] = some [] from rfl] at h
      injection h with h'
      subst h'
      exact ⟨by simp, by decide⟩
    · rw [show b64DecodeCanonical [a] = none from rfl] at h; cases h
    · rw [show b64DecodeCanonical [a, b] = none from rfl] at h; cases h
    · rw [show b64DecodeCanonical [a, b, c] = none from rfl] at h; cases h
    · simp only [b64DecodeCanonical, Option.bind_eq_some] at h
      obtain ⟨va, hva, vb, hvb, h⟩ := h
      by_cases hc : c = '='
      · subst hc
        rw [if_pos rfl] at h
        by_cases hdr : d = '=' ∧ rest = []
        · rw [if_pos hdr] at h
          obtain ⟨hd, hrest⟩ := hdr
          subst hd; subst hrest
          injection h with h'
          subst h'
          constructor
          · intro x hx
            rcases List.mem_cons.mp hx with rfl | hx
            · exact b64Val_not_ws hva
            rcases List.mem_cons.mp hx with rfl | hx
            · exact b64Val_not_ws hvb
            rcases List.mem_cons.mp hx with rfl | hx
            · rfl
            rcases List.mem_cons.mp hx with rfl | hx
            · rfl
            · cases hx
          · rw [b64PaddingOf_dd]
            simp only [List.length_cons, List.length_nil]
            decide
        · rw [if_neg hdr] at h; cases h
      · rw [if_neg hc] at h
        simp only [Option.bind_eq_some] at h
        obtain ⟨vc, hvc, h⟩ := h
        by_cases hd : d = '='
        · subst hd
          rw [if_pos rfl] at h
          by_cases hrest : rest = []
          · rw [if_pos hrest] at h
            subst hrest
            injection h with h'
            subst h'
            constructor
            · intro x hx
              rcases List.mem_cons.mp hx with rfl | hx
              · exact b64Val_not_ws hva
              rcases List.mem_cons.mp hx with rfl | hx
              · exact b64Val_not_ws hvb
              rcases List.mem_cons.mp hx with rfl | hx
              · exact b64Val_not_ws hvc
              rcases List.mem_cons.mp hx with rfl | hx
              · rfl
              · cases hx
            · rw [b64PaddingOf_one (b64Val_ne_pad hvc)]
              simp only [List.length_cons, List.length_nil]
              decide
          · rw [if_neg hrest] at h; cases h
        · rw [if_neg hd] at h
          simp only [Option.bind_eq_some] at h
          obtain ⟨vd, hvd, bs', hbs', heq⟩ := h
          injection heq with h'
          subst h'
          have hrlen : rest.length ≤ m := by
            simp only [List.length_cons] at hl
            omega
          obtain ⟨chw, arith⟩ := ih rest hrlen bs' hbs'
          constructor
          · intro x hx
            rcases List.mem_cons.mp hx with rfl | hx
            · exact b64Val_not_ws hva
            rcases List.mem_cons.mp hx with rfl | hx
            · exact b64Val_not_ws hvb
            rcases List.mem_cons.mp hx with rfl | hx
            · exact b64Val_not_ws hvc
            rcases List.mem_cons.mp hx with rfl | hx
            · exact b64Val_not_ws hvd
            · exact chw x hx
          · rcases b64DecodeCanonical_shape hbs' with hnil | hlen
            · subst hnil
              rw [show b64DecodeCanonical ([] : List Char) = some [] from rfl] at hbs'
              injection hbs' with h''
              subst h''
              rw [show (a :: b :: c :: d :: ([] : List Char)) = [a, b, c, d] from rfl,
                b64PaddingOf_zero (b64Val_ne_pad hvd)]
              simp only [List.length_cons, List.length_nil]
              decide
            · rw [show (a :: b :: c :: d :: rest) = [a, b, c, d] ++ rest from rfl,
                b64PaddingOf_append (by omega)]
              have hlen4 : (([a, b, c, d] ++ rest).length : Int)
                  = (rest.length : Int) + 4 := by
                simp [List.length_append]
                ring
              rw [hlen4]
              have hexp : ((rest.length : Int) + 4) * 3
                  = (rest.length : Int) * 3 + 3 * 4 := by ring
              rw [hexp, Int.add_mul_ediv_right _ 3 (by norm_num : (4 : Int) ≠ 0)]
              simp only [List.length_cons]
              push_cast
              linarith

/-- C2: on every input that strict base64 decoding accepts (correct
padding), the pre-decode estimate `floor(len*3/4) - paddingCount` on the
whitespace-stripped text equals the true decoded length exactly, so
enforcing the limit against the estimate admits precisely the blobs
whose true decoded size is within the limit; on the loader, an inline
attachment with decodable content is accepted iff its decoded size is
within the limit. -/
theorem base64_estimate_exact :
    (∀ (s : String) (bs : List Nat), b64DecodeCanonical s.data = some bs →
      estimatedBase64DecodedSize s = (bs.length : Int) ∧
      (∀ L : Int, estimatedBase64DecodedSize s ≤ L ↔ (bs.length : Int) ≤ L)) ∧
    (∀ (fs : FS) (root : String) (att : Attachment) (i : Nat) (L : Int)
        (bs : List Nat),
      pyStrip (att.filename.getD "") ≠ "" →
      truthyOpt att.path = false →
      truthyOpt att.content_base64 = true →
      b64DecodeCanonical (att.content_base64.getD "").data = some bs →
      (readAttachmentBytes fs root att i L =
          .ok (pyStrip (att.filename.getD ""), bs,
            if truthyOpt att.content_type then att.content_type else none)
        ↔ (bs.length : Int) ≤ L)) := by
  have main : ∀ (s : String) (bs : List Nat), b64DecodeCanonical s.data = some bs →
      estimatedBase64DecodedSize s = (bs.length : Int) := by
    intro s bs h
    obtain ⟨chw, arith⟩ :=
      b64DecodeCanonical_core s.data.length s.data (le_refl _) bs h
    have hstrip : stripAllWs s.data = s.data := by
      refine List.filter_eq_self.mpr ?_
      intro x hx
      rw [chw x hx]
      rfl
    unfold estimatedBase64DecodedSize estimatedBase64DecodedSizeL
    rw [hstrip]
    by_cases hnil : s.data = []
    · rw [if_pos hnil]
      rw [hnil, show b64DecodeCanonical [] = some [] from rfl] at h
      injection h with h'
      subst h'
      rfl
    · rw [if_neg hnil]
      exact arith
  constructor
  · intro s bs h
    refine ⟨main s bs h, fun L => by rw [main s bs h]⟩
  · intro fs root att i L bs hfn hpath hb64 hdec
    have hest := main (att.content_base64.getD "") bs hdec
    have hbranch : readAttachmentBytes fs root att i L =
        match enforceAttachmentLimit (pyStrip (att.filename.getD ""))
            (estimatedBase64DecodedSize (att.content_base64.getD "")) L with
        | .error e => .error e
        | .ok _ =>
          match b64DecodeCanonical (att.content_base64.getD "").data with
          | none => .error (.invalidBase64 (pyStrip (att.filename.getD "")))
          | some payload =>
            match enforceAttachmentLimit (pyStrip (att.filename.getD ""))
                (payload.length : Int) L with
            | .error e => .error e
            | .ok _ => .ok (pyStrip (att.filename.getD ""), payload,
                if truthyOpt att.content_type then att.content_type else none) := by
      simp only [readAttachmentBytes, if_neg hfn, hpath, hb64]
      rfl
    rw [hbranch, hdec, hest]
    by_cases hL : (bs.length : Int) ≤ L
    · have h1 : enforceAttachmentLimit (pyStrip (att.filename.getD ""))
          ((bs.length : Nat) : Int) L = .ok () := by
        rw [enforceAttachmentLimit, if_neg (by omega)]
      rw [h1]
      dsimp only
      rw [h1]
      dsimp only
      simp [hL]
    · have h2 : enforceAttachmentLimit (pyStrip (att.filename.getD ""))
          ((bs.length : Nat) : Int) L =
          .error (.tooLarge (pyStrip (att.filename.getD ""))
            ((bs.length : Nat) : Int) L) := by
        rw [enforceAttachmentLimit, if_pos (by omega)]
      rw [h2]
      dsimp only
      simp [hL]

/-- Witness for C2 with the four-character input `"TWFu"` (decodes to
three bytes) and a concrete inline attachment at the exact limit. -/
theorem base64_estimate_exact_witness :
    estimatedBase64DecodedSize "TWFu" = ((3 : Nat) : Int) ∧
    readAttachmentBytes sampleFS "/attachments"
      { filename := some "m.bin", path := none,
        content_base64 := some "TWFu", content_type := none } 0 3 =
      .ok ("m.bin", [77, 97, 110], none) := by
  constructor
  · exact (base64_estimate_exact.1 "TWFu" [77, 97, 110] (by rfl)).1
  · exact (base64_estimate_exact.2 sampleFS "/attachments"
      { filename := some "m.bin", path := none,
        content_base64 := some "TWFu", content_type := none } 0 3 [77, 97, 110]
      (by decide) (by decide) (by decide) (by rfl)).mpr (by decide)

/-! ## C10: attachment source selection by truthiness -/

/-- C10: source selection is by truthiness with `path` taking precedence
and no exclusivity check: with a truthy `path` the loader's result does
not depend on `content_base64` at all (inline content is silently
ignored, no error); a present-but-falsy `path` (empty string) behaves
exactly like an absent one, so the descriptor falls through to the
inline branch; and when both sources are absent or falsy the loader
fails with the missing-source error. -/
theorem attachment_source_precedence :
    (∀ (fs : FS) (root : String) (att : Attachment) (i : Nat) (L : Int)
        (x : Option String),
      truthyOpt att.path = true →
      readAttachmentBytes fs root { att with content_base64 := x } i L =
        readAttachmentBytes fs root att i L) ∧
    (∀ (fs : FS) (root : String) (att : Attachment) (i : Nat) (L : Int),
      readAttachmentBytes fs root { att with path := some "" } i L =
        readAttachmentBytes fs root { att with path := none } i L) ∧
    (∀ (fs : FS) (root : String) (att : Attachment) (i : Nat) (L : Int),
      pyStrip (att.filename.getD "") ≠ "" →
      truthyOpt att.path = false →
      truthyOpt att.content_base64 = false →
      readAttachmentBytes fs root att i L =
        .error (.missingSource (pyStrip (att.filename.getD "")))) := by
  refine ⟨?_, ?_, ?_⟩
  · intro fs root att i L x h
    simp only [readAttachmentBytes, h, if_true]
  · intro fs root att i L
    simp only [readAttachmentBytes, truthyOpt]
    rfl
  · intro fs root att i L hfn hp hc
    simp only [readAttachmentBytes, if_neg hfn, hp, hc]
    rfl

/-- Witness for C10: with both `path` and `content_base64` truthy the
path source wins and no error is raised, and with an empty-string path
and no inline content the loader reports the missing source. -/
theorem attachment_source_precedence_witness :
    readAttachmentBytes sampleFS "/attachments"
      { sampleAtt with content_base64 := some "TWFu" } 0 100 =
      .ok ("report.pdf", [1, 2, 3], some "application/pdf") ∧
    readAttachmentBytes sampleFS "/attachments"
      { filename := some "f.bin", path := some "", content_base64 := none,
        content_type := none } 0 100 =
      .error (.missingSource "f.bin") := by
  constructor
  · rw [attachment_source_precedence.1 sampleFS "/attachments" sampleAtt 0 100
      (some "TWFu") (by decide)]
    rfl
  · exact attachment_source_precedence.2.2 sampleFS "/attachments"
      { filename := some "f.bin", path := some "", content_base64 := none,
        content_type := none } 0 100 (by decide) (by decide) (by decide)

/-! ## C4, C5, C9: the execute pipeline -/

/-- The attachment loop only emits `attached` and `attachError` lines —
never a `will send` marker. -/
theorem attachLoop_no_willSend (fs : FS) (root : String) (limit : Int)
    (mg : String → Option String) :
    ∀ (atts : List Attachment) (i : Nat) (t : Int),
      LogEntry.willSend t ∉ (attachLoop fs root limit mg atts i).1 := by
  intro atts
  induction atts with
  | nil => intro i t h; simp [attachLoop] at h
  | cons a rest ih =>
    intro i t h
    rw [attachLoop] at h
    rcases hr : readAttachmentBytes fs root a i limit with e | v
    · rw [hr] at h
      simp at h
    · obtain ⟨fn, payload, ct⟩ := v
      rw [hr] at h
      dsimp only at h
      rcases List.mem_cons.mp h with habs | h
      · cases habs
      · exact ih (i + 1) t h

/-- C5: if loading some attachment fails, `execute` returns that
attachment-stage error, no SMTP connection is attempted, and the log
trail contains no `will send` entry. -/
theorem attach_error_aborts_before_network :
    ∀ (env : Env) (fs : FS) (w : SmtpWorld) (inp : EmailInput) (e : AttachErr),
      (attachLoop fs env.allowedDir (getAttachmentsLimitBytes env.attachmentsLimitRaw)
        env.mimeGuess inp.attachments 0).2 = .error e →
      (executeCore env fs w inp).1.error = some (.attach e) ∧
      (executeCore env fs w inp).2 = false ∧
      ∀ t : Int, LogEntry.willSend t ∉ (executeCore env fs w inp).1.logs := by
  intro env fs w inp e he
  unfold executeCore
  dsimp only
  rw [he]
  refine ⟨rfl, rfl, ?_⟩
  intro t ht
  dsimp only at ht
  rcases List.mem_append.mp ht with hbase | hatt
  · simp at hbase
  · exact attachLoop_no_willSend fs env.allowedDir
      (getAttachmentsLimitBytes env.attachmentsLimitRaw) env.mimeGuess
      inp.attachments 0 t hatt

/-- Witness for C5 at the spec's end-to-end scenario B: attachment path
`/etc/passwd` with allowed root `/attachments` yields the outside-root
path error, the SMTP flag stays false, and no `will send` line with the
default 30-second timeout is logged. -/
theorem attach_error_aborts_before_network_witness :
    (executeCore
        { allowedDir := "/attachments", attachmentsLimitRaw := none,
          smtpTimeoutRaw := none, mimeGuess := fun _ => none }
        sampleFS { connectOk := true, starttlsOk := true, loginOk := true, sendOk := true }
        { sampleInput with attachments :=
            [{ filename := some "passwd", path := some "/etc/passwd",
               content_base64 := none, content_type := none }] }).1.error =
      some (.attach (.invalidPathOutsideRoot "/etc/passwd")) ∧
    (executeCore
        { allowedDir := "/attachments", attachmentsLimitRaw := none,
          smtpTimeoutRaw := none, mimeGuess := fun _ => none }
        sampleFS { connectOk := true, starttlsOk := true, loginOk := true, sendOk := true }
        { sampleInput with attachments :=
            [{ filename := some "passwd", path := some "/etc/passwd",
               content_base64 := none, content_type := none }] }).2 = false ∧
    LogEntry.willSend 30 ∉
      (executeCore
        { allowedDir := "/attachments", attachmentsLimitRaw := none,
          smtpTimeoutRaw := none, mimeGuess := fun _ => none }
        sampleFS { connectOk := true, starttlsOk := true, loginOk := true, sendOk := true }
        { sampleInput with attachments :=
            [{ filename := some "passwd", path := some "/etc/passwd",
               content_base64 := none, content_type := none }] }).1.logs := by
  have h := attach_error_aborts_before_network
    { allowedDir := "/attachments", attachmentsLimitRaw := none,
      smtpTimeoutRaw := none, mimeGuess := fun _ => none }
    sampleFS { connectOk := true, starttlsOk := true, loginOk := true, sendOk := true }
    { sampleInput with attachments :=
        [{ filename := some "passwd", path := some "/etc/passwd",
           content_base64 := none, content_type := none }] }
    (.invalidPathOutsideRoot "/etc/passwd") (by rfl)
  exact ⟨h.1, h.2.1, h.2.2 30⟩

/-- C4: when the attachment stage succeeds and To/Cc/Bcc together yield
no recipients, `execute` fails with the no-recipients error. -/
theorem no_recipients_error :
    ∀ (env : Env) (fs : FS) (w : SmtpWorld) (inp : EmailInput)
      (atts : List ResolvedAtt),
      (attachLoop fs env.allowedDir (getAttachmentsLimitBytes env.attachmentsLimitRaw)
        env.mimeGuess inp.attachments 0).2 = .ok atts →
      envelopeRecipients inp = [] →
      (executeCore env fs w inp).1.error = some .noRecipients := by
  intro env fs w inp atts hok hemp
  unfold executeCore
  dsimp only
  rw [hok]
  dsimp only
  rw [if_pos hemp]

/-- Witness for C4: all three recipient fields empty (and no
attachments) produce the no-recipients error. -/
theorem no_recipients_error_witness :
    (executeCore
        { allowedDir := "/attachments", attachmentsLimitRaw := none,
          smtpTimeoutRaw := none, mimeGuess := fun _ => none }
        sampleFS { connectOk := true, starttlsOk := true, loginOk := true, sendOk := true }
        { sampleInput with email_to := "", email_cc := some "", email_bcc := some "" }).1.error =
      some .noRecipients :=
  no_recipients_error
    { allowedDir := "/attachments", attachmentsLimitRaw := none,
      smtpTimeoutRaw := none, mimeGuess := fun _ => none }
    sampleFS { connectOk := true, starttlsOk := true, loginOk := true, sendOk := true }
    { sampleInput with email_to := "", email_cc := some "", email_bcc := some "" }
    [] (by rfl) (by decide)

/-- C9: the assembled message never carries a Bcc header — it does not
depend on `email_bcc` at all — while every parsed Bcc address is part of
the protocol-level envelope recipient list. -/
theorem bcc_only_in_envelope :
    (∀ (inp : EmailInput) (atts : List ResolvedAtt) (b₁ b₂ : Option String),
      buildMessage { inp with email_bcc := b₁ } atts =
        buildMessage { inp with email_bcc := b₂ } atts) ∧
    (∀ (inp : EmailInput) (atts : List ResolvedAtt) (v : String),
      ("Bcc", v) ∉ (buildMessage inp atts).headers) ∧
    (∀ (inp : EmailInput) (a : String),
      a ∈ splitRecipients inp.email_bcc → a ∈ envelopeRecipients inp) := by
  refine ⟨fun _ _ _ _ => rfl, ?_, ?_⟩
  · intro inp atts v h
    simp only [buildMessage, buildHeaders] at h
    by_cases hcc : truthyOpt inp.email_cc <;>
      by_cases hrt : truthyOpt inp.email_reply_to <;>
      simp [hcc, hrt] at h
  · intro inp a ha
    rw [envelopeRecipients, dedupeKeepOrder, mem_dedupeAux]
    refine ⟨?_, by simp⟩
    rw [List.mem_append]
    exact Or.inr ha

/-- Witness for C9: a concrete Bcc address lands in the envelope. -/
theorem bcc_only_in_envelope_witness :
    "b@y" ∈ envelopeRecipients { sampleInput with email_bcc := some "b@y" } :=
  bcc_only_in_envelope.2.2 { sampleInput with email_bcc := some "b@y" } "b@y"
    (by decide)

/-! ## C1: the path guard accepts exactly the canonical paths under the
canonical root -/

theorem splitSep_pieces_no_sep (sep : Char) :
    ∀ (l piece : List Char), piece ∈ splitSep sep l → sep ∉ piece := by
  intro l
  induction l with
  | nil =>
    intro piece hp
    simp [splitSep] at hp
    subst hp
    simp
  | cons c rest ih =>
    intro piece hp
    by_cases hc : c = sep
    · rw [splitSep, if_pos hc] at hp
      rcases List.mem_cons.mp hp with rfl | hp
      · simp
      · exact ih piece hp
    · rw [splitSep, if_neg hc] at hp
      rcases hs : splitSep sep rest with _ | ⟨h1, t1⟩
      · exact absurd hs (splitSep_ne_nil sep rest)
      · rw [hs] at hp
        dsimp only at hp
        rcases List.mem_cons.mp hp with rfl | hp
        · intro hmem
          rcases List.mem_cons.mp hmem with heq | hmem
          · exact hc heq.symm
          · exact ih h1 (by rw [hs]; exact List.mem_cons_self h1 t1) hmem
        · exact ih piece (by rw [hs]; exact List.mem_cons_of_mem h1 hp)

/-- Splitting `p ++ l` when `p` is separator-free prepends `p` onto the
first piece of the split of `l`. -/
theorem splitSep_append_no_sep (sep : Char) :
    ∀ (p l : List Char), sep ∉ p →
      splitSep sep (p ++ l) =
        (p ++ (splitSep sep l).headD []) :: (splitSep sep l).tail := by
  intro p
  induction p with
  | nil =>
    intro l _
    rcases hs : splitSep sep l with _ | ⟨h1, t1⟩
    · exact absurd hs (splitSep_ne_nil sep l)
    · simp [hs]
  | cons c p' ih =>
    intro l hmem
    have hc : c ≠ sep := fun h => hmem (h ▸ List.mem_cons_self c p')
    have hp' : sep ∉ p' := fun h => hmem (List.mem_cons_of_mem c h)
    rw [List.cons_append, splitSep, if_neg hc, ih l hp']
    simp

/-- Splitting a separator-free list yields that list as the one piece. -/
theorem splitSep_no_sep (sep : Char) (l : List Char) (h : sep ∉ l) :
    splitSep sep l = [l] := by
  have := splitSep_append_no_sep sep l [] h
  simpa [splitSep] using this

/-- `"/".join` then split on `/` round-trips for nonempty slash-free
components. -/
theorem splitSep_joinSlash :
    ∀ L : List (List Char), (∀ c ∈ L, '/' ∉ c) → L ≠ [] →
      splitSep '/' (joinSlash L) = L := by
  intro L
  induction L with
  | nil => intro _ h; exact absurd rfl h
  | cons c rest ih =>
    intro hmem _
    rcases rest with _ | ⟨c2, rest'⟩
    · rw [show joinSlash [c] = c from rfl]
      exact splitSep_no_sep '/' c (hmem c (List.mem_cons_self _ _))
    · rw [show joinSlash (c :: c2 :: rest') = c ++ '/' :: joinSlash (c2 :: rest') from rfl]
      rw [splitSep_append_no_sep '/' c _ (hmem c (List.mem_cons_self _ _))]
      rw [show splitSep '/' ('/' :: joinSlash (c2 :: rest'))
          = [] :: splitSep '/' (joinSlash (c2 :: rest')) from by
        rw [splitSep, if_pos rfl]]
      rw [ih (fun x hx => hmem x (List.mem_cons_of_mem c hx)) (by simp)]
      simp

/-- Components of a join of good components recover the components. -/
theorem pathComps_joinAbs (L : List (List Char))
    (h : ∀ c ∈ L, c ≠ [] ∧ c ≠ ['.'] ∧ '/' ∉ c) :
    pathCompsL (joinAbsL L) = L := by
  unfold joinAbsL pathCompsL
  rw [show splitSep '/' ('/' :: joinSlash L) = [] :: splitSep '/' (joinSlash L) from by
    rw [splitSep, if_pos rfl]]
  rw [List.filter_cons]
  simp only [show (!(([] : List Char) = [] : Bool) && !(([] : List Char) = ['.'] : Bool)) = false
    from by decide]
  rcases hL : L with _ | ⟨c, rest⟩
  · simp [splitSep]
  · rw [← hL]
    rw [splitSep_joinSlash L (fun x hx => (h x hx).2.2) (by rw [hL]; simp)]
    refine List.filter_eq_self.mpr ?_
    intro x hx
    obtain ⟨h1, h2, _⟩ := h x hx
    simp [h1, h2]

/-- Every element of the common prefix belongs to the first list. -/
theorem commonPrefixL_mem :
    ∀ (A B : List (List Char)) (x : List Char), x ∈ commonPrefixL A B → x ∈ A := by
  intro A
  induction A with
  | nil => intro B x hx; simp [commonPrefixL] at hx
  | cons a as ih =>
    intro B x hx
    rcases B with _ | ⟨b, bs⟩
    · simp [commonPrefixL] at hx
    · rw [commonPrefixL] at hx
      by_cases hab : a = b
      · rw [if_pos hab] at hx
        rcases List.mem_cons.mp hx with rfl | hx
        · exact List.mem_cons_self _ _
        · exact List.mem_cons_of_mem a (ih bs x hx)
      · rw [if_neg hab] at hx
        simp at hx

/-- The common prefix equals the first list exactly when the first list
is a prefix of the second. -/
theorem commonPrefixL_eq_self_iff :
    ∀ (A B : List (List Char)),
      commonPrefixL A B = A ↔ listIsPrefixL A B = true := by
  intro A
  induction A with
  | nil =>
    intro B
    constructor
    · intro _; rfl
    · intro _
      rcases B with _ | ⟨b, bs⟩ <;> rfl
  | cons a as ih =>
    intro B
    rcases B with _ | ⟨b, bs⟩
    · constructor
      · intro h
        rw [show commonPrefixL (a :: as) [] = [] from rfl] at h
        cases h
      · intro h
        rw [show listIsPrefixL (a :: as) [] = false from rfl] at h
        cases h
    · rw [commonPrefixL, listIsPrefixL]
      by_cases hab : a = b
      · rw [if_pos hab]
        constructor
        · intro h
          have h' : commonPrefixL as bs = as := by
            injection h
          simp [hab, (ih bs).mp h']
        · intro h
          simp only [Bool.and_eq_true, decide_eq_true_eq] at h
          rw [(ih bs).mpr h.2]
      · rw [if_neg hab]
        constructor
        · intro h; cases h
        · intro h
          simp only [Bool.and_eq_true, decide_eq_true_eq] at h
          exact absurd h.1 hab

/-- Unpacking canonical-absolute-path form. -/
theorem isCanonAbs_spec {s : List Char} (h : isCanonAbs s = true) :
    isAbsL s = true ∧ s = joinAbsL (pathCompsL s) := by
  unfold isCanonAbs at h
  simp only [Bool.and_eq_true, decide_eq_true_eq] at h
  exact h

/-- Every component produced by `pathCompsL` is nonempty, is not `.` and
contains no slash. -/
theorem pathCompsL_mem {p x : List Char} (hx : x ∈ pathCompsL p) :
    x ≠ [] ∧ x ≠ ['.'] ∧ '/' ∉ x := by
  unfold pathCompsL at hx
  have hsplit := List.mem_of_mem_filter hx
  have hcond := List.of_mem_filter hx
  simp only [Bool.and_eq_true, Bool.not_eq_true', decide_eq_false_iff_not] at hcond
  exact ⟨hcond.1, hcond.2, splitSep_pieces_no_sep '/' p x hsplit⟩

/-- Under a canonical root, the string comparison of the `commonpath`
output with the root is exactly the component-prefix test. -/
theorem common_eq_root_iff {rootL candL : List Char}
    (hrootEq : rootL = joinAbsL (pathCompsL rootL)) :
    joinAbsL (commonPrefixL (pathCompsL rootL) (pathCompsL candL)) = rootL
      ↔ listIsPrefixL (pathCompsL rootL) (pathCompsL candL) = true := by
  constructor
  · intro h
    rw [← commonPrefixL_eq_self_iff]
    have hcp : pathCompsL (joinAbsL (commonPrefixL (pathCompsL rootL) (pathCompsL candL)))
        = commonPrefixL (pathCompsL rootL) (pathCompsL candL) := by
      refine pathComps_joinAbs _ ?_
      intro c hc
      exact pathCompsL_mem (commonPrefixL_mem _ _ c hc)
    calc commonPrefixL (pathCompsL rootL) (pathCompsL candL)
        = pathCompsL (joinAbsL (commonPrefixL (pathCompsL rootL) (pathCompsL candL))) :=
          hcp.symm
      _ = pathCompsL rootL := by rw [h]
  · intro h
    rw [(commonPrefixL_eq_self_iff _ _).mpr h]
    exact hrootEq.symm

theorem pathguard_iff_aux (rp : List Char → List Char)
    (allowedDir p out : String)
    (hroot : isCanonAbs (rp allowedDir.data) = true)
    (hcand : isCanonAbs (rp p.data) = true) :
    resolveAndValidateAttachmentPath rp allowedDir p = .ok out ↔
      (specPathAccepted rp allowedDir p = true ∧ out = ⟨rp p.data⟩) := by
  obtain ⟨hrootAbs, hrootEq⟩ := isCanonAbs_spec hroot
  obtain ⟨hcandAbs, hcandEq⟩ := isCanonAbs_spec hcand
  unfold resolveAndValidateAttachmentPath specPathAccepted
  by_cases hp : p = ""
  · rw [if_pos hp]
    simp [hp]
  · rw [if_neg hp]
    by_cases hw : windowsShapedL p.data = true
    · rw [if_pos hw]
      simp [hw, hp]
    · have hw' : windowsShapedL p.data = false := by
        cases hww : windowsShapedL p.data
        · rfl
        · exact absurd hww hw
      rw [if_neg hw]
      by_cases hab : isAbsL p.data = true
      · rw [if_neg (by rw [hab]; decide)]
        dsimp only
        rw [show commonPathL (rp allowedDir.data) (rp p.data)
            = some (joinAbsL (commonPrefixL (pathCompsL (rp allowedDir.data))
                (pathCompsL (rp p.data)))) from by
          unfold commonPathL
          rw [hrootAbs, hcandAbs, if_pos rfl]
          rfl]
        dsimp only
        by_cases hpre : listIsPrefixL (pathCompsL (rp allowedDir.data))
            (pathCompsL (rp p.data)) = true
        · have heq := (common_eq_root_iff hrootEq).mpr hpre
          rw [if_neg (by
            intro hne
            exact hne heq)]
          simp [hp, hw', hab, hpre, eq_comm]
        · have hne : joinAbsL (commonPrefixL (pathCompsL (rp allowedDir.data))
              (pathCompsL (rp p.data))) ≠ rp allowedDir.data := by
            intro heq
            exact hpre ((common_eq_root_iff hrootEq).mp heq)
          rw [if_pos hne]
          simp [hpre]
      · have hab' : isAbsL p.data = false := by
          cases habb : isAbsL p.data
          · rfl
          · exact absurd habb hab
        rw [if_pos (by rw [hab']; decide)]
        simp [hab']

/-- C1: the path guard accepts, and returns the canonical resolved path,
exactly when the raw value is a non-empty string, is not
Windows-drive/UNC-shaped, is absolute, and its canonicalisation is equal
to or nested under the canonical allowed root per the component-wise
common-prefix check (stated for any canonicalisation function, i.e. any
filesystem).  Relative paths are always rejected, and on a symlink-free
filesystem with root `/attachments`, `/attachments/../etc/passwd`,
`/attachments-other/x` and `/attachments-evil` are all rejected. -/
theorem pathguard_accepts_iff :
    (∀ (rp : List Char → List Char) (allowedDir p out : String),
      isCanonAbs (rp allowedDir.data) = true →
      isCanonAbs (rp p.data) = true →
      (resolveAndValidateAttachmentPath rp allowedDir p = .ok out ↔
        (specPathAccepted rp allowedDir p = true ∧ out = ⟨rp p.data⟩))) ∧
    (∀ (rp : List Char → List Char) (allowedDir p out : String),
      isAbsL p.data = false →
      resolveAndValidateAttachmentPath rp allowedDir p ≠ .ok out) ∧
    resolveAndValidateAttachmentPath lexRealpath "/attachments"
      "/attachments/../etc/passwd" =
      .error (.invalidPathOutsideRoot "/attachments/../etc/passwd") ∧
    resolveAndValidateAttachmentPath lexRealpath "/attachments"
      "/attachments-other/x" =
      .error (.invalidPathOutsideRoot "/attachments-other/x") ∧
    resolveAndValidateAttachmentPath lexRealpath "/attachments"
      "/attachments-evil" =
      .error (.invalidPathOutsideRoot "/attachments-evil") := by
  refine ⟨fun rp d p out hr hc => pathguard_iff_aux rp d p out hr hc, ?_, rfl, rfl, rfl⟩
  intro rp allowedDir p out hab
  unfold resolveAndValidateAttachmentPath
  by_cases hp : p = ""
  · rw [if_pos hp]; simp
  · rw [if_neg hp]
    by_cases hw : windowsShapedL p.data = true
    · rw [if_pos hw]; simp
    · rw [if_neg hw, if_pos (by rw [hab]; decide)]
      simp

/-- Witness for C1: on the symlink-free filesystem with root
`/attachments`, the guard accepts `/attachments/sub/../report.pdf` and
returns its canonical form `/attachments/report.pdf`, and rejects the
relative path `relative/path`. -/
theorem pathguard_accepts_iff_witness :
    resolveAndValidateAttachmentPath lexRealpath "/attachments"
      "/attachments/sub/../report.pdf" = .ok "/attachments/report.pdf" ∧
    resolveAndValidateAttachmentPath lexRealpath "/attachments"
      "relative/path" ≠ .ok "/attachments/x" := by
  constructor
  · exact (pathguard_accepts_iff.1 lexRealpath "/attachments"
      "/attachments/sub/../report.pdf" "/attachments/report.pdf"
      (by decide) (by decide)).mpr ⟨by decide, by decide⟩
  · exact pathguard_accepts_iff.2.1 lexRealpath "/attachments"
      "relative/path" "/attachments/x" (by decide)

end SendEmail
